import Mathlib

set_option maxHeartbeats 1000000
set_option maxRecDepth 8192

/- Shallow embedding of promptbuilder's main.go (the structured-scheme variant
   that is the repository's single source file).  Go strings are modelled as
   Lean `String`s; file contents and the generated output are modelled as raw
   byte lists (`List Nat`); filesystem paths are, inside the traversal engine,
   modelled as lists of path segments. -/

/- ---------------------------------------------------------------- -/
/- Go string / path primitives (package path/filepath, unix rules)  -/
/- ---------------------------------------------------------------- -/

/-- UTF-8 bytes of one code point (how a Go string stores a rune). -/
def encodeChar (n : Nat) : List Nat :=
  if n < 128 then [n]
  else if n < 2048 then [192 + n / 64, 128 + n % 64]
  else if n < 65536 then [224 + n / 4096, 128 + (n / 64) % 64, 128 + n % 64]
  else [240 + n / 262144, 128 + (n / 4096) % 64, 128 + (n / 64) % 64, 128 + n % 64]

/-- Byte sequence of a Go string (Go strings are UTF-8 byte strings). -/
def strBytes (s : String) : List Nat :=
  s.data.flatMap (fun c => encodeChar c.toNat)

/-- Split a character list at every occurrence of `sep` (the accumulator
holds the current piece reversed). -/
def splitCharAux (sep : Char) : List Char → List Char → List String
  | [], acc => [String.mk acc.reverse]
  | c :: rest, acc =>
    if c = sep then String.mk acc.reverse :: splitCharAux sep rest []
    else splitCharAux sep rest (c :: acc)

/-- Go `strings.Split(s, sep)` for a one-character separator. -/
def splitChar (sep : Char) (s : String) : List String :=
  splitCharAux sep s.data []

/-- Split a path string at every '/' (helper for the filepath functions). -/
def splitSlash (p : String) : List String :=
  splitChar '/' p

/-- Whitespace for Go `strings.TrimSpace` (the ASCII/Latin-1 part of
`unicode.IsSpace`; directive files are ASCII). -/
def isSpaceChar (c : Char) : Bool :=
  c = ' ' || c = '\t' || c = '\n' || c = '\x0b' || c = '\x0c' || c = '\r'

/-- Go `strings.TrimSpace`. -/
def goTrim (s : String) : String :=
  String.mk (((s.data.dropWhile isSpaceChar).reverse.dropWhile isSpaceChar).reverse)

/-- Go `strings.ToLower` (ASCII letters; directive keys are ASCII). -/
def goToLower (s : String) : String :=
  String.mk (s.data.map (fun c => if 'A' ≤ c ∧ c ≤ 'Z' then Char.ofNat (c.toNat + 32) else c))

/-- Go `strings.HasPrefix(s, pre)`. -/
def goStartsWith (s pre : String) : Bool :=
  pre.data.isPrefixOf s.data

/-- Go `filepath.IsAbs` on unix: the path starts with a separator. -/
def isAbs (p : String) : Bool :=
  p.data.head? == some '/'

/-- Segment normalization performed by Go `filepath.Clean`: drop empty and
"." segments, resolve ".." against the previous segment ("..": popped at the
root when `rooted`, kept otherwise when there is nothing to pop). -/
def cleanSegs (rooted : Bool) (segs : List String) : List String :=
  segs.foldl
    (fun acc s =>
      if s = "" ∨ s = "." then acc
      else if s = ".." then
        if acc ≠ [] ∧ acc.getLast? ≠ some ".." then acc.dropLast
        else if rooted then acc else acc ++ [".."]
      else acc ++ [s])
    []

/-- Go `filepath.Join(cwd, p)` for an absolute `cwd`, as used by
`filepath.Abs` on a relative path (join then clean; result is absolute). -/
def goAbsJoin (cwd p : String) : String :=
  "/" ++ String.intercalate "/" (cleanSegs true (splitSlash cwd ++ splitSlash p))

/-- Path segments the kernel would resolve a path string to when the program
`os.Stat`s it (cleaning is the lexical counterpart of resolution; the model
filesystem has no symlinks). -/
def statSegs (p : String) : List String :=
  cleanSegs (isAbs p) (splitSlash p)

/-- Go `filepath.Base` on a path given as segments of an absolute path. -/
def lastSeg (p : List String) : String :=
  (p.getLast?).getD "/"

/-- Go `filepath.Ext` of a path whose final element is `name`: the suffix
starting at the final dot of the final element, empty when there is no dot. -/
def extOf (name : String) : String :=
  let rev := name.data.reverse
  match rev.findIdx? (fun c => c = '.') with
  | some i => String.mk ((rev.take (i + 1)).reverse)
  | none => ""

/-- Length of the common segment prefix of two paths (helper for `goRelSegs`). -/
def commonPrefixLen : List String → List String → Nat
  | a :: as, b :: bs => if a = b then 1 + commonPrefixLen as bs else 0
  | _, _ => 0

/-- Go `filepath.Rel(base, targ)` on segment lists (both already cleaned and
of the same rootedness): `none` mirrors Go's error when the remaining base
contains "..", otherwise "../" entries for the remaining base segments
followed by the remaining target segments. -/
def goRelSegs (base targ : List String) : Option (List String) :=
  let k := commonPrefixLen base targ
  if (base.drop k).contains ".." then none
  else some (List.replicate (base.length - k) ".." ++ targ.drop k)

/-- Slash-joined form of a relative segment path, "." when empty — the string
Go's `filepath.Rel` returns (after `filepath.ToSlash`, identity on unix). -/
def relStr (rs : List String) : String :=
  if rs.isEmpty then "." else String.intercalate "/" rs

/- ---------------------------------------------------------------- -/
/- Config model (type Config, main.go lines 17-24)                  -/
/- ---------------------------------------------------------------- -/

structure Config where
  HeaderText : String
  BaseDir : String
  Includes : List String
  ExcludeFolders : List String
  ExcludeExtensions : List String
  ExcludeFiles : List String
deriving Repr, DecidableEq

/-- Configuration freshly allocated by `readInputFile` (all fields empty). -/
def emptyConfig : Config :=
  { HeaderText := ""
    BaseDir := ""
    Includes := []
    ExcludeFolders := []
    ExcludeExtensions := []
    ExcludeFiles := [] }

/- ---------------------------------------------------------------- -/
/- Input parsing (readInputFile, main.go lines 51-117)              -/
/- ---------------------------------------------------------------- -/

/-- Characters before and after the first '=', if any. -/
def breakEq : List Char → Option (List Char × List Char)
  | [] => none
  | c :: rest =>
    if c = '=' then some ([], rest)
    else (breakEq rest).map (fun p => (c :: p.1, p.2))

/-- Go `strings.SplitN(line, "=", 2)`: `none` when the line has no '=',
otherwise the text before the first '=' and everything after it. -/
def splitN1 (line : String) : Option (String × String) :=
  (breakEq line.data).map (fun p => (String.mk p.1, String.mk p.2))

/-- Loop state of the scanner loop in `readInputFile`. -/
structure PState where
  cfg : Config
  headerLines : List String
  isHeader : Bool

/-- One iteration of the scanner loop in `readInputFile` (lines 69-110). -/
def procLine (st : PState) (line : String) : PState :=
  if line = "---" then
    { st with
      isHeader := false
      cfg := { st.cfg with HeaderText := String.intercalate "\n" st.headerLines } }
  else if st.isHeader then
    { st with headerLines := st.headerLines ++ [line] }
  else if line = "" then st
  else
    match splitN1 line with
    | none => st
    | some (k, v) =>
      let key := goToLower (goTrim k)
      let value := goTrim v
      if key = "basedir" then
        { st with cfg := { st.cfg with BaseDir := value } }
      else if key = "include" then
        { st with cfg := { st.cfg with Includes := st.cfg.Includes ++ [value] } }
      else if key = "excludefolder" then
        { st with cfg := { st.cfg with ExcludeFolders := st.cfg.ExcludeFolders ++ [value] } }
      else if key = "excludeextension" then
        let ext := if goStartsWith value "*." then value else "*." ++ value
        { st with cfg := { st.cfg with ExcludeExtensions := st.cfg.ExcludeExtensions ++ [ext] } }
      else if key = "excludefile" then
        { st with cfg := { st.cfg with ExcludeFiles := st.cfg.ExcludeFiles ++ [value] } }
      else st

/-- `readInputFile` on the scanned lines of the input file (the model's input
is the line list `bufio.Scanner` produces). -/
def readInputFile (lines : List String) : Config :=
  (lines.foldl procLine { cfg := emptyConfig, headerLines := [], isHeader := true }).cfg

/- ---------------------------------------------------------------- -/
/- Content classifier (isBinaryFile, main.go lines 119-138)         -/
/- ---------------------------------------------------------------- -/

/-- Initial state of the UTF-8 acceptor: between code points. -/
def utf8Start : Option (Nat × Nat × Nat) :=
  some (0, 128, 191)

/-- One byte of strict UTF-8 validation, the acceptor behind Go `utf8.Valid`:
`none` is the reject state, `some (k, lo, hi)` expects `k` more continuation
bytes of which the next must lie in `lo..hi` (the first-byte/accept-range
table of Go's unicode/utf8 package). -/
def utf8Step : Option (Nat × Nat × Nat) → Nat → Option (Nat × Nat × Nat)
  | none, _ => none
  | some (0, _, _), b =>
    if b ≤ 127 then utf8Start
    else if b < 194 then none
    else if b ≤ 223 then some (1, 128, 191)
    else if b = 224 then some (2, 160, 191)
    else if b = 237 then some (2, 128, 159)
    else if b ≤ 239 then some (2, 128, 191)
    else if b = 240 then some (3, 144, 191)
    else if b ≤ 243 then some (3, 128, 191)
    else if b = 244 then some (3, 128, 143)
    else none
  | some (k + 1, lo, hi), b =>
    if lo ≤ b ∧ b ≤ hi then some (k, 128, 191) else none

/-- Go `utf8.Valid`: every byte consumed and not stopped mid-sequence. -/
def utf8Valid (l : List Nat) : Bool :=
  match l.foldl utf8Step utf8Start with
  | some (0, _, _) => true
  | _ => false

/-- Pure core of `isBinaryFile` on the file's bytes: look at the first 512
bytes only; any 0x00 byte means binary, otherwise binary iff the prefix
(as read, possibly cut mid-sequence) is not valid UTF-8. -/
def isBinaryBytes (content : List Nat) : Bool :=
  let buf := content.take 512
  buf.contains 0 || !(utf8Valid buf)

/- ---------------------------------------------------------------- -/
/- Model filesystem                                                 -/
/- ---------------------------------------------------------------- -/

/- A snapshot of the part of the filesystem the run touches.  Each syscall
   the program makes is modelled by its outcome recorded in the snapshot:
   `sniffOk` = the `os.Open`/`Read` inside `isBinaryFile` succeeds,
   `readOk` = `os.ReadFile` in `generateOutput` succeeds,
   `walkOk` = reading the directory during `filepath.Walk` succeeds.
   Children are listed in the order `readDirNames` yields them, which in Go
   is sorted name order; trees representing real directories therefore list
   children in strictly sorted order (captured by `wfNode` below where
   ordering matters). -/
mutual
inductive FSNode where
  | file (sniffOk readOk : Bool) (content : List Nat)
  | dir (walkOk : Bool) (children : FSList)
inductive FSList where
  | nil
  | cons (name : String) (node : FSNode) (rest : FSList)
end

/-- Child of a directory listing by name (first match). -/
def lookupChild : FSList → String → Option FSNode
  | FSList.nil, _ => none
  | FSList.cons nm c rest, s => if nm = s then some c else lookupChild rest s

/-- Node reached from `fs` by following the given (already cleaned) segments. -/
def nodeAt : FSNode → List String → Option FSNode
  | n, [] => some n
  | FSNode.file _ _ _, _ :: _ => none
  | FSNode.dir _ cs, s :: rest =>
    match lookupChild cs s with
    | none => none
    | some c => nodeAt c rest

/-- Whether a node is a directory (`FileInfo.IsDir`). -/
def FSNode.isDir : FSNode → Bool
  | FSNode.file _ _ _ => false
  | FSNode.dir _ _ => true

/-- Names of a directory listing, in listed order. -/
def fsNames : FSList → List String
  | FSList.nil => []
  | FSList.cons nm _ rest => nm :: fsNames rest

/-- A usable directory-entry name: nonempty, not "." or "..", no separator. -/
def validName (s : String) : Bool :=
  s ≠ "" && s ≠ "." && s ≠ ".." && !(s.data.contains '/')

/-- Go string comparison `a < b` on the characters (code-point lexicographic,
which on UTF-8 strings coincides with Go's byte-wise order). -/
def strLtB : List Char → List Char → Bool
  | [], [] => false
  | [], _ :: _ => true
  | _ :: _, [] => false
  | a :: as, b :: bs =>
    if a.toNat < b.toNat then true
    else if b.toNat < a.toNat then false
    else strLtB as bs

/-- Go `a < b` on strings. -/
def strLt (a b : String) : Bool :=
  strLtB a.data b.data

/-- Strictly ascending string list (sorted and duplicate-free). -/
def strictSorted : List String → Bool
  | [] => true
  | [_] => true
  | a :: b :: t => strLt a b && strictSorted (b :: t)

mutual
/-- Well-formed directory tree: every directory lists valid child names in
strictly sorted order (the order `readDirNames` produces for a real
directory). -/
def wfNode : FSNode → Bool
  | FSNode.file _ _ _ => true
  | FSNode.dir _ cs => strictSorted (fsNames cs) && (fsNames cs).all validName && wfList cs
def wfList : FSList → Bool
  | FSList.nil => true
  | FSList.cons _ c rest => wfNode c && wfList rest
end

/-- `isBinaryFile` at a path: `Except.error` when the open or read fails
(also when the path is gone or names a directory, whose read fails),
otherwise the classification of the content. -/
def isBinaryFileM (fs : FSNode) (segs : List String) : Except Unit Bool :=
  match nodeAt fs segs with
  | some (FSNode.file sniffOk _ c) =>
    if sniffOk then Except.ok (isBinaryBytes c) else Except.error ()
  | _ => Except.error ()

/-- `os.ReadFile` at a path: the content when the node is a readable file. -/
def readFileM (fs : FSNode) (segs : List String) : Option (List Nat) :=
  match nodeAt fs segs with
  | some (FSNode.file _ readOk c) => if readOk then some c else none
  | _ => none

/-- Content of the file at a path, `[]` when there is none (used only to
state theorems whose hypotheses guarantee the file exists). -/
def contentAt (fs : FSNode) (segs : List String) : List Nat :=
  match nodeAt fs segs with
  | some (FSNode.file _ _ c) => c
  | _ => []

/-- The path names a file whose sniff-open and content-read both succeed. -/
def readableAt (fs : FSNode) (segs : List String) : Bool :=
  match nodeAt fs segs with
  | some (FSNode.file sniffOk readOk _) => sniffOk && readOk
  | _ => false

/- ---------------------------------------------------------------- -/
/- Validation (Config.validate, main.go lines 26-49)                -/
/- ---------------------------------------------------------------- -/

inductive VErr where
  | missingBaseDir
  | baseDirNotFound
  | noIncludes
deriving Repr, DecidableEq

/-- BaseDir after the absolute-path resolution step of `validate`: kept as
given when already absolute, otherwise `filepath.Abs` = join with the
working directory. -/
def resolveBase (cwd b : String) : String :=
  if isAbs b then b else goAbsJoin cwd b

/-- `Config.validate`: returns the outcome together with the final state of
the (mutated) configuration — on the not-found error the BaseDir field has
already been rewritten to the resolved path, exactly as in the Go method. -/
def validate (cwd : String) (fs : FSNode) (c : Config) : Except VErr Unit × Config :=
  if c.BaseDir = "" then (Except.error VErr.missingBaseDir, c)
  else
    if (nodeAt fs (statSegs (resolveBase cwd c.BaseDir))).isSome = false then
      (Except.error VErr.baseDirNotFound, { c with BaseDir := resolveBase cwd c.BaseDir })
    else if c.Includes = [] then
      (Except.error VErr.noIncludes, { c with BaseDir := resolveBase cwd c.BaseDir })
    else (Except.ok (), { c with BaseDir := resolveBase cwd c.BaseDir })

/- ---------------------------------------------------------------- -/
/- Path filter (main.go lines 140-183)                              -/
/- ---------------------------------------------------------------- -/

/-- `isExcludedFolder`: the path's final segment equals a configured folder
name (`filepath.Base(path) == folder`). -/
def isExcludedFolder (path : List String) (excludeFolders : List String) : Bool :=
  excludeFolders.any (fun folder => lastSeg path == folder)

/-- `isExcludedExtension`: no extension is never excluded; otherwise some
stored pattern equals `"*" ++ ext` exactly (string comparison). -/
def isExcludedExtension (path : List String) (excludeExtensions : List String) : Bool :=
  if extOf (lastSeg path) = "" then false
  else excludeExtensions.any (fun pattern => pattern == "*" ++ extOf (lastSeg path))

/-- `isExcludedFile`: the path relative to BaseDir (slash-joined) equals an
entry, or the bare filename equals it; a `filepath.Rel` error yields false. -/
def isExcludedFile (path : List String) (baseDir : String) (excludeFiles : List String) : Bool :=
  match goRelSegs (statSegs baseDir) path with
  | none => false
  | some rs =>
    excludeFiles.any (fun pat => relStr rs == pat || lastSeg path == pat)

/- ---------------------------------------------------------------- -/
/- Traversal engine (collectFiles / findFiles, main.go 185-251)     -/
/- ---------------------------------------------------------------- -/

mutual
/-- `filepath.Walk` of `collectFiles`, fused with its callback.  `root` is
the walked include root, `rel` the segments from `root` to the current node
(the callback's `currentPath` is `root ++ rel`).  Files pass the extension
and file filters and emit `filepath.Rel(root, currentPath)`; directories are
pruned via `SkipDir` when their base name is excluded; a failed directory
read reaches the callback as a non-nil error, which the callback returns,
aborting the walk. -/
def walkCollect (cfg : Config) (root : List String) (rel : List String) :
    FSNode → Except Unit (List (List String))
  | FSNode.file _ _ _ =>
    if isExcludedExtension (root ++ rel) cfg.ExcludeExtensions
        || isExcludedFile (root ++ rel) cfg.BaseDir cfg.ExcludeFiles then
      Except.ok []
    else
      match goRelSegs root (root ++ rel) with
      | some r => Except.ok [r]
      | none => Except.error ()
  | FSNode.dir walkOk cs =>
    if walkOk = false then Except.error ()
    else if isExcludedFolder (root ++ rel) cfg.ExcludeFolders then Except.ok []
    else walkChildren cfg root rel cs
/-- Walk the children of a directory in listed (= sorted) order,
concatenating emissions and aborting at the first error. -/
def walkChildren (cfg : Config) (root : List String) (rel : List String) :
    FSList → Except Unit (List (List String))
  | FSList.nil => Except.ok []
  | FSList.cons nm c rest =>
    match walkCollect cfg root (rel ++ [nm]) c with
    | Except.error e => Except.error e
    | Except.ok a =>
      match walkChildren cfg root rel rest with
      | Except.error e => Except.error e
      | Except.ok b => Except.ok (a ++ b)
end

/-- `collectFiles(path, config)`: walk the include root. -/
def collectFiles (root : List String) (node : FSNode) (cfg : Config) :
    Except Unit (List (List String)) :=
  walkCollect cfg root [] node

/-- Segments of `filepath.Join(config.BaseDir, includePath)`, the stat'd and
walked root of one include entry. -/
def incRoot (cfg : Config) (inc : String) : List String :=
  cleanSegs (isAbs cfg.BaseDir) (splitSlash cfg.BaseDir ++ splitSlash inc)

/-- Loop body of `findFiles` over the include entries: an inaccessible
include is skipped with a warning; a directory include contributes its walk
(each result re-prefixed with the include entry, `filepath.Join(includePath,
f)`); a file include contributes itself unless excluded; a walk error aborts
`findFiles`. -/
def findFilesAux (cfg : Config) (fs : FSNode) : List String → Except Unit (List (List String))
  | [] => Except.ok []
  | inc :: rest =>
    match nodeAt fs (incRoot cfg inc) with
    | none => findFilesAux cfg fs rest
    | some node =>
      if node.isDir then
        match walkCollect cfg (incRoot cfg inc) [] node with
        | Except.error e => Except.error e
        | Except.ok files =>
          match findFilesAux cfg fs rest with
          | Except.error e => Except.error e
          | Except.ok tl =>
            Except.ok (files.map (fun f => cleanSegs false (splitSlash inc ++ f)) ++ tl)
      else
        if isExcludedExtension (incRoot cfg inc) cfg.ExcludeExtensions
            || isExcludedFile (incRoot cfg inc) cfg.BaseDir cfg.ExcludeFiles then
          findFilesAux cfg fs rest
        else
          match findFilesAux cfg fs rest with
          | Except.error e => Except.error e
          | Except.ok tl => Except.ok (cleanSegs false (splitSlash inc) :: tl)

/-- `findFiles(config)`. -/
def findFiles (cfg : Config) (fs : FSNode) : Except Unit (List (List String)) :=
  findFilesAux cfg fs cfg.Includes

/-- Entries contributed by a single include entry when it does not abort the
run (empty on an inaccessible include or a walk error). -/
def incEntries (cfg : Config) (fs : FSNode) (inc : String) : List (List String) :=
  match nodeAt fs (incRoot cfg inc) with
  | none => []
  | some node =>
    if node.isDir then
      match walkCollect cfg (incRoot cfg inc) [] node with
      | Except.error _ => []
      | Except.ok files => files.map (fun f => cleanSegs false (splitSlash inc ++ f))
    else
      if isExcludedExtension (incRoot cfg inc) cfg.ExcludeExtensions
          || isExcludedFile (incRoot cfg inc) cfg.BaseDir cfg.ExcludeFiles then []
      else [cleanSegs false (splitSlash inc)]

/- ---------------------------------------------------------------- -/
/- Output assembler (generateOutput, main.go lines 253-292)         -/
/- ---------------------------------------------------------------- -/

/-- Segments of `filepath.Join(config.BaseDir, relPath)` for a result entry
(already held as segments). -/
def entrySegs (cfg : Config) (f : List String) : List String :=
  cleanSegs (isAbs cfg.BaseDir) (splitSlash cfg.BaseDir ++ f)

/-- String form of `filepath.Join(config.BaseDir, relPath)`, written into
the section heading. -/
def fullStr (cfg : Config) (f : List String) : String :=
  if isAbs cfg.BaseDir then "/" ++ String.intercalate "/" (entrySegs cfg f)
  else if (entrySegs cfg f).isEmpty then "." else String.intercalate "/" (entrySegs cfg f)

/-- Bytes one selected file contributes to the output: the `Fprintf`/
`Fprintln` calls of the loop body — heading with the full path, opening
fence, raw content plus the newline `Fprintln` appends, closing fence,
blank line. -/
def sectionBytes (pathStr : String) (content : List Nat) : List Nat :=
  strBytes ("# " ++ pathStr) ++ [10] ++ strBytes "```" ++ [10]
    ++ content ++ [10] ++ strBytes "```" ++ [10] ++ [10]

/-- Emission loop of `generateOutput`: a file whose binary check errors is
skipped with a warning; a binary file is skipped; a read failure is returned
as an error (aborting the run); otherwise the section is written. -/
def emitFiles (cfg : Config) (fs : FSNode) : List (List String) → Except Unit (List Nat)
  | [] => Except.ok []
  | f :: rest =>
    match isBinaryFileM fs (entrySegs cfg f) with
    | Except.error _ => emitFiles cfg fs rest
    | Except.ok true => emitFiles cfg fs rest
    | Except.ok false =>
      match readFileM fs (entrySegs cfg f) with
      | none => Except.error ()
      | some content =>
        match emitFiles cfg fs rest with
        | Except.error e => Except.error e
        | Except.ok tl => Except.ok (sectionBytes (fullStr cfg f) content ++ tl)

/-- `generateOutput`: fails when the output file cannot be created; writes
the header followed by a blank line when nonempty, then the per-file
sections. -/
def generateOutput (createOk : Bool) (cfg : Config) (files : List (List String))
    (fs : FSNode) : Except Unit (List Nat) :=
  if createOk = false then Except.error ()
  else
    match emitFiles cfg fs files with
    | Except.error e => Except.error e
    | Except.ok body =>
      Except.ok ((if cfg.HeaderText = "" then [] else strBytes cfg.HeaderText ++ [10] ++ [10]) ++ body)

/-- The whole tool after the input file has been parsed: validate, find,
generate (the fatal-error paths of `main`). -/
def runTool (cwd : String) (createOk : Bool) (cfg : Config) (fs : FSNode) :
    Except Unit (List Nat) :=
  match validate cwd fs cfg with
  | (Except.error _, _) => Except.error ()
  | (Except.ok _, cfg') =>
    match findFiles cfg' fs with
    | Except.error e => Except.error e
    | Except.ok files => generateOutput createOk cfg' files fs

/- ---------------------------------------------------------------- -/
/- Derived notions used only to state theorems                      -/
/- ---------------------------------------------------------------- -/

/-- The path names an existing directory in the snapshot. -/
def isDirAt (fs : FSNode) (p : String) : Bool :=
  match nodeAt fs (statSegs p) with
  | some n => n.isDir
  | none => false

/-- Lexicographic order on segment paths induced by Go string order — the
order in which a sorted-children depth-first walk visits files. -/
def segLex (a b : List String) : Prop :=
  List.Lex (fun x y => strLt x y = true) a b

/- ---------------------------------------------------------------- -/
/- Concrete snapshots and configurations used by witnesses           -/
/- ---------------------------------------------------------------- -/

/-- Example include tree: two text files, one binary file, one excluded
folder, children in sorted name order. -/
def exTree : FSNode :=
  FSNode.dir true (FSList.cons "a.txt" (FSNode.file true true [104, 105])
    (FSList.cons "b.bin" (FSNode.file true true [0, 1])
    (FSList.cons "skip" (FSNode.dir true (FSList.cons "hid.txt" (FSNode.file true true [98]) FSList.nil))
    (FSList.cons "sub" (FSNode.dir true (FSList.cons "c.go" (FSNode.file true true [99]) FSList.nil))
    FSList.nil))))

/-- Example filesystem: the tree above mounted at /base/src. -/
def exFs : FSNode :=
  FSNode.dir true (FSList.cons "base"
    (FSNode.dir true (FSList.cons "src" exTree FSList.nil)) FSList.nil)

/-- Example configuration over `exFs`. -/
def exCfg : Config :=
  { HeaderText := "ctx"
    BaseDir := "/base"
    Includes := ["src"]
    ExcludeFolders := ["skip"]
    ExcludeExtensions := []
    ExcludeFiles := [] }

/-- Snapshot with a file whose sniff-open succeeds but whose content read
fails, and one whose sniff-open fails. -/
def fs3 : FSNode :=
  FSNode.dir true (FSList.cons "b"
    (FSNode.dir true (FSList.cons "g.txt" (FSNode.file true false [65])
      (FSList.cons "s.txt" (FSNode.file false true [65]) FSList.nil))) FSList.nil)

/-- Configuration over `fs3`. -/
def cfg3 : Config :=
  { HeaderText := ""
    BaseDir := "/b"
    Includes := ["."]
    ExcludeFolders := []
    ExcludeExtensions := []
    ExcludeFiles := [] }

/-- Snapshot whose single include is a directory that cannot be read. -/
def fs3b : FSNode :=
  FSNode.dir true (FSList.cons "b"
    (FSNode.dir true (FSList.cons "inc" (FSNode.dir false FSList.nil) FSList.nil)) FSList.nil)

/-- Configuration over `fs3b` walking the unreadable directory. -/
def cfg3b : Config :=
  { HeaderText := ""
    BaseDir := "/b"
    Includes := ["inc"]
    ExcludeFolders := []
    ExcludeExtensions := []
    ExcludeFiles := [] }

/-- Snapshot whose root contains a plain file "f". -/
def fs4 : FSNode :=
  FSNode.dir true (FSList.cons "f" (FSNode.file true true [65]) FSList.nil)

/-- Configuration whose BaseDir names the plain file /f. -/
def cfg4 : Config :=
  { HeaderText := ""
    BaseDir := "/f"
    Includes := ["x"]
    ExcludeFolders := []
    ExcludeExtensions := []
    ExcludeFiles := [] }

/-- Parser state sitting after the separator line. -/
def stW6 : PState :=
  { cfg := emptyConfig, headerLines := [], isHeader := false }

/-- Snapshot containing the directory /w/d. -/
def exW4 : FSNode :=
  FSNode.dir true (FSList.cons "w"
    (FSNode.dir true (FSList.cons "d" (FSNode.dir true FSList.nil) FSList.nil)) FSList.nil)

/-- Configuration with a relative BaseDir, resolved against cwd /w. -/
def cfgW4 : Config :=
  { HeaderText := ""
    BaseDir := "d"
    Includes := ["x"]
    ExcludeFolders := []
    ExcludeExtensions := []
    ExcludeFiles := [] }

/- ---------------------------------------------------------------- -/
/- Helper lemmas                                                    -/
/- ---------------------------------------------------------------- -/

theorem utf8Step_good (s : Option (Nat × Nat × Nat)) (b : Nat) :
    ∀ lo hi, utf8Step s b = some (0, lo, hi) → lo = 128 ∧ hi = 191 := by
  intro lo hi h
  match s with
  | none => simp [utf8Step] at h
  | some (0, x, y) =>
    simp only [utf8Step] at h
    split_ifs at h
    all_goals simp_all [utf8Start]
  | some (k + 1, x, y) =>
    simp only [utf8Step] at h
    split_ifs at h
    all_goals simp_all

theorem utf8_foldl_good (l : List Nat) :
    ∀ s, (∀ lo hi, s = some (0, lo, hi) → lo = 128 ∧ hi = 191) →
      ∀ lo hi, l.foldl utf8Step s = some (0, lo, hi) → lo = 128 ∧ hi = 191 := by
  induction l with
  | nil => intro s hs lo hi h; exact hs lo hi h
  | cons b t ih =>
    intro s _ lo hi h
    exact ih (utf8Step s b) (fun lo' hi' => utf8Step_good s b lo' hi') lo hi h

theorem utf8Valid_state (l : List Nat) (h : utf8Valid l = true) :
    l.foldl utf8Step utf8Start = utf8Start := by
  unfold utf8Valid at h
  rcases hm : l.foldl utf8Step utf8Start with _ | ⟨k, lo, hi⟩
  · rw [hm] at h; simp at h
  · rw [hm] at h
    match k with
    | 0 =>
      have hg := utf8_foldl_good l utf8Start
        (by intro lo' hi' hh; simp [utf8Start] at hh; exact ⟨hh.1.symm, hh.2.symm⟩)
        lo hi hm
      rw [hg.1, hg.2]
      rfl
    | k' + 1 => simp at h

theorem utf8Valid_append (l₁ l₂ : List Nat) (h : utf8Valid l₁ = true) :
    utf8Valid (l₁ ++ l₂) = utf8Valid l₂ := by
  unfold utf8Valid
  rw [List.foldl_append, utf8Valid_state l₁ h]

theorem utf8_ascii_state (l : List Nat) :
    (∀ b ∈ l, b ≤ 127) → l.foldl utf8Step utf8Start = utf8Start := by
  induction l with
  | nil => intro _; rfl
  | cons b t ih =>
    intro h
    have hb : b ≤ 127 := h b (by simp)
    simp only [List.foldl_cons]
    rw [show utf8Step utf8Start b = utf8Start by simp [utf8Step, utf8Start, hb]]
    exact ih (fun x hx => h x (by simp [hx]))

theorem utf8Valid_ascii (l : List Nat) (h : ∀ b ∈ l, b ≤ 127) : utf8Valid l = true := by
  unfold utf8Valid
  rw [utf8_ascii_state l h]
  rfl

theorem utf8_single_lead (c : Nat) (h1 : 194 ≤ c) (h2 : c ≤ 244) : utf8Valid [c] = false := by
  unfold utf8Valid
  simp only [List.foldl_cons, List.foldl_nil]
  simp only [utf8Step, utf8Start]
  split_ifs <;> first | rfl | (exfalso; omega)

/- ---------------------------------------------------------------- -/
/- Claim theorems                                                   -/
/- ---------------------------------------------------------------- -/

/-- Claim C1: `isBinaryFile` looks at a prefix of at most 512 bytes and
returns true iff that prefix contains a 0x00 byte or is not valid strict
UTF-8; a pure-ASCII file shorter than 512 bytes is never binary; a prefix
cut right after a multi-byte lead byte at the 512-byte boundary is binary;
an unopenable or unreadable file yields an error, not a classification. -/
theorem claim_C1 :
    (∀ (fs : FSNode) (p : List String) (sOk rOk : Bool) (c : List Nat),
      nodeAt fs p = some (FSNode.file sOk rOk c) → sOk = true →
      isBinaryFileM fs p
        = Except.ok (((c.take 512).contains 0) || !(utf8Valid (c.take 512))))
  ∧ (∀ c : List Nat, c.length < 512 → (∀ b ∈ c, 0 < b ∧ b ≤ 127) →
      isBinaryBytes c = false)
  ∧ (∀ (p : List Nat) (c : Nat) (rest : List Nat), p.length = 511 →
      utf8Valid p = true → 194 ≤ c → c ≤ 244 →
      isBinaryBytes (p ++ c :: rest) = true)
  ∧ (∀ (fs : FSNode) (p : List String), nodeAt fs p = none →
      isBinaryFileM fs p = Except.error ())
  ∧ (∀ (fs : FSNode) (p : List String) (rOk : Bool) (c : List Nat),
      nodeAt fs p = some (FSNode.file false rOk c) →
      isBinaryFileM fs p = Except.error ()) := by
  refine ⟨?_, ?_, ?_, ?_, ?_⟩
  · intro fs p sOk rOk c h hs
    subst hs
    simp [isBinaryFileM, h, isBinaryBytes]
  · intro c hlen hb
    have ht : c.take 512 = c := List.take_of_length_le (by omega)
    have hnm : ¬ (0 ∈ c) := fun hm => by have := (hb 0 hm).1; omega
    have hv : utf8Valid c = true := utf8Valid_ascii c (fun b hbm => (hb b hbm).2)
    simp [isBinaryBytes, ht, hv, hnm]
  · intro p c rest hlen hval h1 h2
    have ht : (p ++ c :: rest).take 512 = p ++ [c] := by
      rw [List.take_append_eq_append_take, List.take_of_length_le (by omega)]
      simp [hlen]
    have hv : utf8Valid (p ++ [c]) = false := by
      rw [utf8Valid_append p [c] hval]
      exact utf8_single_lead c h1 h2
    simp [isBinaryBytes, ht, hv]
  · intro fs p h
    simp [isBinaryFileM, h]
  · intro fs p rOk c h
    simp [isBinaryFileM, h]

/-- Witness for C1 at concrete inputs. -/
theorem claim_C1_witness :
    isBinaryFileM exFs ["base", "src", "a.txt"] = Except.ok false
  ∧ isBinaryBytes ([104, 105] : List Nat) = false
  ∧ isBinaryBytes (List.replicate 511 97 ++ 226 :: [130, 172]) = true
  ∧ isBinaryFileM exFs ["nope"] = Except.error ()
  ∧ isBinaryFileM fs3 ["b", "s.txt"] = Except.error () := by
  refine ⟨?_, ?_, ?_, ?_, ?_⟩
  · have h := claim_C1.1 exFs ["base", "src", "a.txt"] true true [104, 105] rfl rfl
    exact h.trans (by rfl)
  · exact claim_C1.2.1 [104, 105] (by simp) (by decide)
  · exact claim_C1.2.2.1 (List.replicate 511 97) 226 [130, 172] (by simp) (by decide)
      (by decide) (by decide)
  · exact claim_C1.2.2.2.1 exFs ["nope"] rfl
  · exact claim_C1.2.2.2.2 fs3 ["b", "s.txt"] true [65] rfl

theorem readLines_header (lines : List String) :
    ∀ st : PState, st.isHeader = true → (∀ l ∈ lines, l ≠ "---") →
      (lines.foldl procLine st).cfg = st.cfg := by
  induction lines with
  | nil => intro st _ _; rfl
  | cons l ls ih =>
    intro st hh hl
    simp only [List.foldl_cons]
    have hne : l ≠ "---" := hl l (by simp)
    have hstep : procLine st l = { st with headerLines := st.headerLines ++ [l] } := by
      unfold procLine
      rw [if_neg hne, if_pos hh]
    rw [hstep]
    exact ih _ hh (fun x hx => hl x (by simp [hx]))

/-- Claim C9: when no input line is exactly "---" the parse succeeds and
yields the all-empty configuration — every line is hoarded as a header line,
but HeaderText is only assigned on seeing a separator, so everything is
discarded. -/
theorem claim_C9 : ∀ lines : List String, (∀ l ∈ lines, l ≠ "---") →
    readInputFile lines = emptyConfig := by
  intro lines hl
  unfold readInputFile
  rw [readLines_header lines _ rfl hl]

/-- Witness for C9: a file with a header-looking line and a directive-looking
line but no separator parses to the empty configuration. -/
theorem claim_C9_witness : readInputFile ["hello", "basedir=/x"] = emptyConfig :=
  claim_C9 ["hello", "basedir=/x"] (by decide)

/-- Claim C10: `validate` frames every configuration field except BaseDir —
whether it succeeds or fails, the other five fields are returned unchanged. -/
theorem claim_C10 : ∀ (cwd : String) (fs : FSNode) (c : Config),
    (validate cwd fs c).2.HeaderText = c.HeaderText
  ∧ (validate cwd fs c).2.Includes = c.Includes
  ∧ (validate cwd fs c).2.ExcludeFolders = c.ExcludeFolders
  ∧ (validate cwd fs c).2.ExcludeExtensions = c.ExcludeExtensions
  ∧ (validate cwd fs c).2.ExcludeFiles = c.ExcludeFiles := by
  intro cwd fs c
  unfold validate
  split_ifs <;> exact ⟨rfl, rfl, rfl, rfl, rfl⟩

/-- Claim C5: `validate` rejects an empty BaseDir, then a non-existent
resolved BaseDir, then an empty include list, each with its own error kind
and in that order; every other configuration passes. -/
theorem claim_C5 : ∀ (cwd : String) (fs : FSNode) (c : Config),
    (c.BaseDir = "" → (validate cwd fs c).1 = Except.error VErr.missingBaseDir)
  ∧ (c.BaseDir ≠ "" → (nodeAt fs (statSegs (resolveBase cwd c.BaseDir))).isSome = false →
      (validate cwd fs c).1 = Except.error VErr.baseDirNotFound)
  ∧ (c.BaseDir ≠ "" → (nodeAt fs (statSegs (resolveBase cwd c.BaseDir))).isSome = true →
      c.Includes = [] → (validate cwd fs c).1 = Except.error VErr.noIncludes)
  ∧ (c.BaseDir ≠ "" → (nodeAt fs (statSegs (resolveBase cwd c.BaseDir))).isSome = true →
      c.Includes ≠ [] → (validate cwd fs c).1 = Except.ok ()) := by
  intro cwd fs c
  refine ⟨?_, ?_, ?_, ?_⟩
  · intro h1; simp [validate, h1]
  · intro h1 h2; simp [validate, h1, h2]
  · intro h1 h2 h3; simp [validate, h1, h2, h3]
  · intro h1 h2 h3; simp [validate, h1, h2, h3]

/-- Witness for C5 at concrete configurations over `fs4`. -/
theorem claim_C5_witness :
    (validate "/" fs4 { cfg4 with BaseDir := "" }).1 = Except.error VErr.missingBaseDir
  ∧ (validate "/" fs4 { cfg4 with BaseDir := "/nope" }).1 = Except.error VErr.baseDirNotFound
  ∧ (validate "/" fs4 { cfg4 with Includes := [] }).1 = Except.error VErr.noIncludes
  ∧ (validate "/" fs4 cfg4).1 = Except.ok () := by
  refine ⟨?_, ?_, ?_, ?_⟩
  · exact (claim_C5 "/" fs4 _).1 rfl
  · exact (claim_C5 "/" fs4 _).2.1 (by decide) rfl
  · exact (claim_C5 "/" fs4 _).2.2.1 (by decide) rfl rfl
  · exact (claim_C5 "/" fs4 cfg4).2.2.2 (by decide) rfl (by decide)

/-- Claim C6: a bare `excludeextension` value is stored as "*." followed by
the value; a file is excluded by extension iff its extension (with leading
dot) exactly, case-sensitively matches a stored pattern; `a.JSON` is not
excluded by the stored pattern for `json`; an extensionless file is never
excluded by extension. -/
theorem claim_C6 :
    (∀ (st : PState) (line : String) (k v : String),
      st.isHeader = false → line ≠ "---" → line ≠ "" →
      splitN1 line = some (k, v) → goToLower (goTrim k) = "excludeextension" →
      goStartsWith (goTrim v) "*." = false →
      (procLine st line).cfg.ExcludeExtensions
        = st.cfg.ExcludeExtensions ++ ["*." ++ goTrim v])
  ∧ readInputFile ["---", "excludeextension=json"]
      = { emptyConfig with ExcludeExtensions := ["*.json"] }
  ∧ (∀ (path : List String) (pats : List String),
      isExcludedExtension path pats = true
        ↔ (extOf (lastSeg path) ≠ "" ∧ ("*" ++ extOf (lastSeg path)) ∈ pats))
  ∧ isExcludedExtension ["a.JSON"] ["*.json"] = false
  ∧ (∀ (path : List String) (pats : List String),
      extOf (lastSeg path) = "" → isExcludedExtension path pats = false) := by
  refine ⟨?_, rfl, ?_, rfl, ?_⟩
  · intro st line k v hh hline hempty hsplit hk hv
    simp [procLine, hline, hh, hempty, hsplit, hk, hv]
  · intro path pats
    unfold isExcludedExtension
    split_ifs with h
    · simp [h]
    · simp only [h, ne_eq, not_false_iff, true_and, List.any_eq_true, beq_iff_eq]
      exact ⟨fun ⟨a, ha, hae⟩ => hae ▸ ha, fun hm => ⟨_, hm, rfl⟩⟩
  · intro path pats h
    simp [isExcludedExtension, h]

/-- Witness for C6 at concrete inputs. -/
theorem claim_C6_witness :
    (procLine stW6 "excludeextension=json").cfg.ExcludeExtensions
      = stW6.cfg.ExcludeExtensions ++ ["*." ++ goTrim "json"]
  ∧ (isExcludedExtension ["x", "m.json"] ["*.json"] = true
      ↔ (extOf (lastSeg ["x", "m.json"]) ≠ ""
          ∧ ("*" ++ extOf (lastSeg ["x", "m.json"])) ∈ ["*.json"]))
  ∧ isExcludedExtension ["noext"] ["*.json"] = false := by
  refine ⟨?_, ?_, ?_⟩
  · exact claim_C6.1 stW6 "excludeextension=json" "excludeextension" "json"
      rfl (by decide) (by decide) rfl rfl rfl
  · exact claim_C6.2.2.1 ["x", "m.json"] ["*.json"]
  · exact claim_C6.2.2.2.2 ["noext"] ["*.json"] rfl

/-- Counterexample to C3 as stated: the selected file /b/g.txt exists and is
openable (its binary sniff succeeds), but its content read fails, and
`generateOutput` turns that per-file read problem into a fatal error instead
of skipping the file. -/
theorem claim_C3_counterexample :
    generateOutput true cfg3 [["g.txt"]] fs3 = Except.error () := rfl

/-- Claim C3 (amended): an inaccessible include entry is skipped and
processing continues; a file whose binary check fails is skipped during
emission; a bad output destination is fatal; but a directory read failure
during the recursive walk aborts the run, and a failed content read of a
selected file during emission also aborts the run. -/
theorem claim_C3 :
    (∀ (cfg : Config) (fs : FSNode) (inc : String) (rest : List String),
      nodeAt fs (incRoot cfg inc) = none →
      findFilesAux cfg fs (inc :: rest) = findFilesAux cfg fs rest)
  ∧ (∀ (cfg : Config) (fs : FSNode) (f : List String) (rest : List (List String)),
      isBinaryFileM fs (entrySegs cfg f) = Except.error () →
      emitFiles cfg fs (f :: rest) = emitFiles cfg fs rest)
  ∧ (∀ (cfg : Config) (files : List (List String)) (fs : FSNode),
      generateOutput false cfg files fs = Except.error ())
  ∧ findFiles cfg3b fs3b = Except.error ()
  ∧ generateOutput true cfg3 [["g.txt"]] fs3 = Except.error () := by
  refine ⟨?_, ?_, ?_, rfl, rfl⟩
  · intro cfg fs inc rest h
    simp [findFilesAux, h]
  · intro cfg fs f rest h
    simp [emitFiles, h]
  · intro cfg files fs
    rfl

/-- Witness for C3's general conjuncts at concrete inputs. -/
theorem claim_C3_witness :
    findFilesAux exCfg exFs ("gone" :: exCfg.Includes) = findFilesAux exCfg exFs exCfg.Includes
  ∧ emitFiles cfg3 fs3 [["s.txt"]] = emitFiles cfg3 fs3 [] := by
  refine ⟨?_, ?_⟩
  · exact claim_C3.1 exCfg exFs "gone" exCfg.Includes rfl
  · exact claim_C3.2.1 cfg3 fs3 ["s.txt"] [] rfl

theorem isAbs_goAbsJoin (cwd p : String) : isAbs (goAbsJoin cwd p) = true := by
  unfold goAbsJoin isAbs
  rw [String.data_append]
  rfl

/-- Counterexample to C4 as stated: /f is a plain file, yet `validate`
succeeds on a configuration whose BaseDir is /f — existence is checked, but
being a directory is not. -/
theorem claim_C4_counterexample :
    (validate "/" fs4 cfg4).1 = Except.ok ()
  ∧ isDirAt fs4 (validate "/" fs4 cfg4).2.BaseDir = false := ⟨rfl, rfl⟩

/-- Claim C4 (amended): after `validate` succeeds, BaseDir is an absolute
path naming an existing filesystem entry — not necessarily a directory —
and a relative input BaseDir has been resolved against the process working
directory before the existence check. -/
theorem claim_C4 : ∀ (cwd : String) (fs : FSNode) (c c' : Config),
    validate cwd fs c = (Except.ok (), c') →
    isAbs c'.BaseDir = true
  ∧ (nodeAt fs (statSegs c'.BaseDir)).isSome = true
  ∧ c'.BaseDir = resolveBase cwd c.BaseDir := by
  intro cwd fs c c' h
  unfold validate at h
  split_ifs at h with h1 h2 h3
  · exact absurd (congrArg Prod.fst h) (by simp)
  · exact absurd (congrArg Prod.fst h) (by simp)
  · exact absurd (congrArg Prod.fst h) (by simp)
  · have hc : c' = { c with BaseDir := resolveBase cwd c.BaseDir } :=
      (congrArg Prod.snd h).symm
    subst hc
    refine ⟨?_, ?_, rfl⟩
    · show isAbs (resolveBase cwd c.BaseDir) = true
      unfold resolveBase
      split_ifs with ha
      · exact ha
      · exact isAbs_goAbsJoin cwd c.BaseDir
    · show (nodeAt fs (statSegs (resolveBase cwd c.BaseDir))).isSome = true
      simp only [Bool.not_eq_false] at h2
      exact h2

/-- Witness for C4 (amended): a relative BaseDir "d" with working directory
"/w" resolves to "/w/d", which exists in the snapshot. -/
theorem claim_C4_witness :
    isAbs (validate "/w" exW4 cfgW4).2.BaseDir = true
  ∧ (nodeAt exW4 (statSegs (validate "/w" exW4 cfgW4).2.BaseDir)).isSome = true
  ∧ (validate "/w" exW4 cfgW4).2.BaseDir = resolveBase "/w" cfgW4.BaseDir := by
  exact claim_C4 "/w" exW4 cfgW4 (validate "/w" exW4 cfgW4).2 rfl

theorem emitFiles_ok (cfg : Config) (fs : FSNode) (hA : isAbs cfg.BaseDir = true) :
    ∀ files : List (List String), (∀ f ∈ files, readableAt fs (entrySegs cfg f) = true) →
      emitFiles cfg fs files
        = Except.ok ((files.filter
            (fun f => !(isBinaryBytes (contentAt fs (entrySegs cfg f))))).flatMap
          (fun f => sectionBytes ("/" ++ String.intercalate "/" (entrySegs cfg f))
            (contentAt fs (entrySegs cfg f)))) := by
  intro files
  induction files with
  | nil => intro _; rfl
  | cons f rest ih =>
    intro h
    have hf := h f (by simp)
    unfold readableAt at hf
    rcases hn : nodeAt fs (entrySegs cfg f) with _ | n
    · rw [hn] at hf; simp at hf
    · rw [hn] at hf
      match n with
      | FSNode.dir w cs => simp at hf
      | FSNode.file sOk rOk c =>
        obtain ⟨hs, hr⟩ := by simpa [Bool.and_eq_true] using hf
        subst hs; subst hr
        have hbm : isBinaryFileM fs (entrySegs cfg f) = Except.ok (isBinaryBytes c) := by
          simp [isBinaryFileM, hn]
        have hcontent : contentAt fs (entrySegs cfg f) = c := by
          simp [contentAt, hn]
        have hread : readFileM fs (entrySegs cfg f) = some c := by
          simp [readFileM, hn]
        have hfs : fullStr cfg f = "/" ++ String.intercalate "/" (entrySegs cfg f) := by
          simp [fullStr, hA]
        have htail := ih (fun x hx => h x (by simp [hx]))
        rcases hb : isBinaryBytes c with _ | _
        · simp only [emitFiles, hbm, hb, htail, List.filter_cons, hcontent,
            Bool.not_false, if_pos]
          rw [hread]
          simp [hfs, hcontent]
        · simp only [emitFiles, hbm, hb, htail, List.filter_cons, hcontent,
            Bool.not_true]
          rfl

/-- Claim C7: `generateOutput` writes the header verbatim followed by one
blank line iff it is nonempty, then for each selected non-binary file, in
order, a heading line with the file's full resolved absolute path, a fenced
block holding the raw content byte-for-byte plus the trailing newline record
separator, and a blank line. -/
theorem claim_C7 : ∀ (cfg : Config) (fs : FSNode) (files : List (List String)),
    isAbs cfg.BaseDir = true →
    (∀ f ∈ files, readableAt fs (entrySegs cfg f) = true) →
    generateOutput true cfg files fs = Except.ok (
      (if cfg.HeaderText = "" then [] else strBytes cfg.HeaderText ++ [10] ++ [10])
      ++ (files.filter (fun f => !(isBinaryBytes (contentAt fs (entrySegs cfg f))))).flatMap
          (fun f => strBytes ("# " ++ ("/" ++ String.intercalate "/" (entrySegs cfg f))) ++ [10]
            ++ strBytes "```" ++ [10] ++ contentAt fs (entrySegs cfg f) ++ [10]
            ++ strBytes "```" ++ [10] ++ [10])) := by
  intro cfg fs files hA h
  unfold generateOutput
  rw [if_neg (by simp), emitFiles_ok cfg fs hA files h]
  rfl

/-- Witness for C7 over `exFs`: one text file kept, one binary file
filtered out. -/
theorem claim_C7_witness :
    generateOutput true exCfg [["src", "a.txt"], ["src", "b.bin"]] exFs
      = Except.ok (
        (if exCfg.HeaderText = "" then [] else strBytes exCfg.HeaderText ++ [10] ++ [10])
        ++ (([["src", "a.txt"], ["src", "b.bin"]].filter
              (fun f => !(isBinaryBytes (contentAt exFs (entrySegs exCfg f))))).flatMap
            (fun f => strBytes ("# " ++ ("/" ++ String.intercalate "/" (entrySegs exCfg f))) ++ [10]
              ++ strBytes "```" ++ [10] ++ contentAt exFs (entrySegs exCfg f) ++ [10]
              ++ strBytes "```" ++ [10] ++ [10]))) :=
  claim_C7 exCfg exFs [["src", "a.txt"], ["src", "b.bin"]] rfl
    (by intro f hf; simp at hf; rcases hf with rfl | rfl <;> rfl)

theorem commonPrefixLen_append_self (root : List String) (rel : List String) :
    commonPrefixLen root (root ++ rel) = root.length := by
  induction root with
  | nil => cases rel <;> rfl
  | cons a as ih =>
    simp [commonPrefixLen, ih]
    omega

theorem goRelSegs_append_self (root rel : List String) :
    goRelSegs root (root ++ rel) = some rel := by
  unfold goRelSegs
  rw [commonPrefixLen_append_self]
  simp [List.drop_left]

theorem lastSeg_concat (xs : List String) (a : String) : lastSeg (xs ++ [a]) = a := by
  simp [lastSeg, List.getLast?_concat]

theorem not_excludedFolder_iff (path : List String) (folders : List String) :
    isExcludedFolder path folders = false ↔ lastSeg path ∉ folders := by
  simp only [isExcludedFolder, Bool.eq_false_iff, ne_eq, List.any_eq_true, beq_iff_eq,
    not_exists, not_and]
  constructor
  · intro h hm
    exact h (lastSeg path) hm rfl
  · intro h x hx he
    subst he
    exact h hx

mutual
theorem walkCollect_prune (cfg : Config) (root : List String) :
    ∀ (n : FSNode) (rel : List String) (l : List (List String)),
      walkCollect cfg root rel n = Except.ok l →
      ∀ f ∈ l, ∃ t, f = rel ++ t
        ∧ (∀ s ∈ t.dropLast, s ∉ cfg.ExcludeFolders)
        ∧ (t ≠ [] → lastSeg (root ++ rel) ∉ cfg.ExcludeFolders) := fun n =>
  match n with
  | FSNode.file a b c => by
    intro rel l h f hf
    unfold walkCollect at h
    split_ifs at h with hex
    · obtain rfl : l = [] := by simpa using h.symm
      simp at hf
    · rw [goRelSegs_append_self root rel] at h
      obtain rfl : l = [rel] := by simpa using h.symm
      obtain rfl : f = rel := by simpa using hf
      exact ⟨[], by simp, by simp, by simp⟩
  | FSNode.dir w cs => by
    intro rel l h f hf
    unfold walkCollect at h
    split_ifs at h with hw hex
    · obtain rfl : l = [] := by simpa using h.symm
      simp at hf
    · obtain ⟨nm, t', hft, hs, hnm⟩ := walkChildren_prune cfg root cs rel l h f hf
      refine ⟨nm :: t', hft, ?_, fun _ => ?_⟩
      · intro s hsmem
        cases t' with
        | nil => simp at hsmem
        | cons x xs =>
          rw [List.dropLast_cons₂] at hsmem
          rcases List.mem_cons.mp hsmem with rfl | hsm
          · exact hnm (by simp)
          · exact hs s hsm
      · exact (not_excludedFolder_iff (root ++ rel) cfg.ExcludeFolders).mp
          (by simpa using hex)
theorem walkChildren_prune (cfg : Config) (root : List String) :
    ∀ (cs : FSList) (rel : List String) (l : List (List String)),
      walkChildren cfg root rel cs = Except.ok l →
      ∀ f ∈ l, ∃ nm t', f = rel ++ nm :: t'
        ∧ (∀ s ∈ t'.dropLast, s ∉ cfg.ExcludeFolders)
        ∧ (t' ≠ [] → nm ∉ cfg.ExcludeFolders) := fun cs =>
  match cs with
  | FSList.nil => by
    intro rel l h f hf
    obtain rfl : l = [] := by simpa [walkChildren] using h.symm
    simp at hf
  | FSList.cons nm c rest => by
    intro rel l h f hf
    unfold walkChildren at h
    rcases ha : walkCollect cfg root (rel ++ [nm]) c with e | a
    · rw [ha] at h; simp at h
    · rw [ha] at h
      rcases hb : walkChildren cfg root rel rest with e | b
      · rw [hb] at h; simp at h
      · rw [hb] at h
        obtain rfl : l = a ++ b := by simpa using h.symm
        rcases List.mem_append.mp hf with hfa | hfb
        · obtain ⟨t, hft, hs, hnm⟩ := walkCollect_prune cfg root c (rel ++ [nm]) a ha f hfa
          refine ⟨nm, t, by simpa [List.append_assoc] using hft, hs, fun ht => ?_⟩
          have := hnm ht
          rwa [show root ++ (rel ++ [nm]) = (root ++ rel) ++ [nm] by simp,
            lastSeg_concat] at this
        · obtain ⟨nm', t', hft, hs, hnm'⟩ := walkChildren_prune cfg root rest rel b hb f hfb
          exact ⟨nm', t', hft, hs, hnm'⟩
end

/-- Claim C2: within the recursive walk of one include entry, a directory
whose final path segment is an excluded folder name prunes its entire
subtree — the walk of an excluded root emits nothing, and no emitted file
path passes through an excluded directory (no segment except the file's
own name is an excluded folder name). -/
theorem claim_C2 : ∀ (cfg : Config) (root : List String),
    (∀ cs : FSList, isExcludedFolder root cfg.ExcludeFolders = true →
      walkCollect cfg root [] (FSNode.dir true cs) = Except.ok [])
  ∧ (∀ (n : FSNode) (l : List (List String)),
      walkCollect cfg root [] n = Except.ok l →
      ∀ f ∈ l, ∀ s ∈ f.dropLast, s ∉ cfg.ExcludeFolders) := by
  intro cfg root
  constructor
  · intro cs hex
    simp [walkCollect, hex]
  · intro n l h f hf s hs
    obtain ⟨t, hft, hint, _⟩ := walkCollect_prune cfg root n [] l h f hf
    simp only [List.nil_append] at hft
    subst hft
    exact hint s hs

/-- Witness for C2: walking an excluded root yields nothing, and the segment
"sub" on an emitted path of the example walk is not an excluded folder. -/
theorem claim_C2_witness :
    walkCollect exCfg ["x", "skip"] [] (FSNode.dir true FSList.nil) = Except.ok []
  ∧ ("sub" : String) ∉ exCfg.ExcludeFolders := by
  constructor
  · exact (claim_C2 exCfg ["x", "skip"]).1 FSList.nil rfl
  · exact (claim_C2 exCfg ["base", "src"]).2 exTree
      [["a.txt"], ["b.bin"], ["sub", "c.go"]] rfl ["sub", "c.go"] (by simp)
      "sub" (by simp)

theorem strLtB_trans : ∀ as bs cs : List Char,
    strLtB as bs = true → strLtB bs cs = true → strLtB as cs = true := by
  intro as
  induction as with
  | nil =>
    intro bs cs h1 h2
    cases bs with
    | nil => simp [strLtB] at h1
    | cons y ys =>
      cases cs with
      | nil => simp [strLtB] at h2
      | cons z zs => rfl
  | cons x xs ih =>
    intro bs cs h1 h2
    cases bs with
    | nil => simp [strLtB] at h1
    | cons y ys =>
      cases cs with
      | nil => simp [strLtB] at h2
      | cons z zs =>
        by_cases hxy : x.toNat < y.toNat
        · by_cases hyz : y.toNat < z.toNat
          · have hxz : x.toNat < z.toNat := Nat.lt_trans hxy hyz
            simp [strLtB, hxz]
          · by_cases hzy : z.toNat < y.toNat
            · simp [strLtB, hyz, hzy] at h2
            · have hxz : x.toNat < z.toNat := by omega
              simp [strLtB, hxz]
        · by_cases hyx : y.toNat < x.toNat
          · simp [strLtB, hxy, hyx] at h1
          · have h1' : strLtB xs ys = true := by simpa [strLtB, hxy, hyx] using h1
            by_cases hyz : y.toNat < z.toNat
            · have hxz : x.toNat < z.toNat := by omega
              simp [strLtB, hxz]
            · by_cases hzy : z.toNat < y.toNat
              · simp [strLtB, hyz, hzy] at h2
              · have h2' : strLtB ys zs = true := by simpa [strLtB, hyz, hzy] using h2
                have hxz1 : ¬ x.toNat < z.toNat := by omega
                have hxz2 : ¬ z.toNat < x.toNat := by omega
                simpa [strLtB, hxz1, hxz2] using ih ys zs h1' h2'

theorem strLt_trans (a b c : String) (h1 : strLt a b = true) (h2 : strLt b c = true) :
    strLt a c = true :=
  strLtB_trans a.data b.data c.data h1 h2

theorem strictSorted_cons : ∀ (l : List String) (a : String), strictSorted (a :: l) = true →
    strictSorted l = true ∧ ∀ b ∈ l, strLt a b = true := by
  intro l
  induction l with
  | nil => intro a _; exact ⟨rfl, by simp⟩
  | cons x xs ih =>
    intro a h
    obtain ⟨hax, hxxs⟩ : strLt a x = true ∧ strictSorted (x :: xs) = true := by
      simpa [strictSorted, Bool.and_eq_true] using h
    obtain ⟨_, hall⟩ := ih x hxxs
    refine ⟨hxxs, ?_⟩
    intro b hb
    rcases List.mem_cons.mp hb with rfl | hbx
    · exact hax
    · exact strLt_trans a x b hax (hall b hbx)

theorem lex_append_left (p : List String) {a b : List String} (h : segLex a b) :
    segLex (p ++ a) (p ++ b) := by
  induction p with
  | nil => exact h
  | cons x xs ih => exact List.Lex.cons ih

theorem lex_of_head_lt (p : List String) {a b : String} (s t : List String)
    (h : strLt a b = true) : segLex (p ++ a :: s) (p ++ b :: t) := by
  induction p with
  | nil => exact List.Lex.rel h
  | cons x xs ih => exact List.Lex.cons ih

theorem cleanSegs_concat_valid (r : Bool) (xs : List String) (s : String)
    (hs : validName s = true) : cleanSegs r (xs ++ [s]) = cleanSegs r xs ++ [s] := by
  obtain ⟨⟨⟨h1, h2⟩, h3⟩, -⟩ : ((¬s = "" ∧ ¬s = ".") ∧ ¬s = "..") ∧ '/' ∉ s.data := by
    simpa [validName, Bool.and_eq_true] using hs
  unfold cleanSegs
  rw [List.foldl_append]
  simp only [List.foldl_cons, List.foldl_nil]
  rw [if_neg (by simp [h1, h2]), if_neg h3]

theorem cleanSegs_append_valid (r : Bool) :
    ∀ (t xs : List String), (∀ s ∈ t, validName s = true) →
      cleanSegs r (xs ++ t) = cleanSegs r xs ++ t := by
  intro t
  induction t with
  | nil => intro xs _; simp
  | cons s ss ih =>
    intro xs hv
    rw [show xs ++ s :: ss = (xs ++ [s]) ++ ss from by simp]
    rw [ih (xs ++ [s]) (fun x hx => hv x (by simp [hx]))]
    rw [cleanSegs_concat_valid r xs s (hv s (by simp))]
    simp

mutual
theorem walkCollect_sorted (cfg : Config) (root : List String) :
    ∀ (n : FSNode), wfNode n = true → ∀ (rel : List String) (l : List (List String)),
      walkCollect cfg root rel n = Except.ok l →
      l.Pairwise segLex
        ∧ ∀ f ∈ l, ∃ t, f = rel ++ t ∧ ∀ s ∈ t, validName s = true := fun n =>
  match n with
  | FSNode.file a b c => by
    intro _ rel l h
    unfold walkCollect at h
    split_ifs at h with hex
    · obtain rfl : l = [] := by simpa using h.symm
      exact ⟨List.Pairwise.nil, by simp⟩
    · rw [goRelSegs_append_self root rel] at h
      obtain rfl : l = [rel] := by simpa using h.symm
      refine ⟨by simp, ?_⟩
      intro f hf
      obtain rfl : f = rel := by simpa using hf
      exact ⟨[], by simp, by simp⟩
  | FSNode.dir w cs => by
    intro hwf rel l h
    obtain ⟨⟨hsort, hval⟩, hwl⟩ :
        (strictSorted (fsNames cs) = true ∧ (fsNames cs).all validName = true)
          ∧ wfList cs = true := by
      simpa only [wfNode, Bool.and_eq_true] using hwf
    unfold walkCollect at h
    split_ifs at h with hw hex
    · obtain rfl : l = [] := by simpa using h.symm
      exact ⟨List.Pairwise.nil, by simp⟩
    · obtain ⟨hp, hsh⟩ := walkChildren_sorted cfg root cs hsort hval hwl rel l h
      refine ⟨hp, ?_⟩
      intro f hf
      obtain ⟨nm, t, hnm, hft, hvt⟩ := hsh f hf
      refine ⟨nm :: t, hft, ?_⟩
      intro s hsm
      rcases List.mem_cons.mp hsm with rfl | hsm'
      · exact (List.all_eq_true.mp hval) s hnm
      · exact hvt s hsm'
theorem walkChildren_sorted (cfg : Config) (root : List String) :
    ∀ (cs : FSList), strictSorted (fsNames cs) = true →
      (fsNames cs).all validName = true → wfList cs = true →
      ∀ (rel : List String) (l : List (List String)),
        walkChildren cfg root rel cs = Except.ok l →
        l.Pairwise segLex
          ∧ ∀ f ∈ l, ∃ nm t, nm ∈ fsNames cs ∧ f = rel ++ nm :: t
            ∧ ∀ s ∈ t, validName s = true := fun cs =>
  match cs with
  | FSList.nil => by
    intro _ _ _ rel l h
    obtain rfl : l = [] := by simpa [walkChildren] using h.symm
    exact ⟨List.Pairwise.nil, by simp⟩
  | FSList.cons nm c rest => by
    intro hsort hval hwl rel l h
    obtain ⟨hwc, hwr⟩ : wfNode c = true ∧ wfList rest = true := by
      simpa only [wfList, Bool.and_eq_true] using hwl
    have hsort' : strictSorted (nm :: fsNames rest) = true := by
      simpa only [fsNames] using hsort
    obtain ⟨hsrest, hlt⟩ := strictSorted_cons (fsNames rest) nm hsort'
    obtain ⟨hvnm, hvrest⟩ : validName nm = true ∧ (fsNames rest).all validName = true := by
      simpa only [fsNames, List.all_cons, Bool.and_eq_true] using hval
    unfold walkChildren at h
    rcases ha : walkCollect cfg root (rel ++ [nm]) c with e | a
    · rw [ha] at h; simp at h
    · rw [ha] at h
      rcases hb : walkChildren cfg root rel rest with e | b
      · rw [hb] at h; simp at h
      · rw [hb] at h
        obtain rfl : l = a ++ b := by simpa using h.symm
        obtain ⟨hpa, hsha⟩ := walkCollect_sorted cfg root c hwc (rel ++ [nm]) a ha
        obtain ⟨hpb, hshb⟩ := walkChildren_sorted cfg root rest hsrest hvrest hwr rel b hb
        constructor
        · rw [List.pairwise_append]
          refine ⟨hpa, hpb, ?_⟩
          intro x₁ hx₁ x₂ hx₂
          obtain ⟨t₁, hxt₁, _⟩ := hsha x₁ hx₁
          obtain ⟨nm₂, t₂, hnm₂, hxt₂, _⟩ := hshb x₂ hx₂
          subst hxt₁; subst hxt₂
          rw [List.append_assoc]
          exact lex_of_head_lt rel _ _ (hlt nm₂ hnm₂)
        · intro f hf
          rcases List.mem_append.mp hf with hfa | hfb
          · obtain ⟨t, hft, hvt⟩ := hsha f hfa
            exact ⟨nm, t, by simp [fsNames], by simpa [List.append_assoc] using hft, hvt⟩
          · obtain ⟨nm', t, hnm', hft, hvt⟩ := hshb f hfb
            exact ⟨nm', t, by simp [fsNames, hnm'], hft, hvt⟩
end

theorem findFilesAux_flatMap (cfg : Config) (fs : FSNode) :
    ∀ (incs : List String) (l : List (List String)),
      findFilesAux cfg fs incs = Except.ok l →
      l = incs.flatMap (incEntries cfg fs) := by
  intro incs
  induction incs with
  | nil =>
    intro l h
    have hl : l = [] := by simpa [findFilesAux] using h.symm
    simp [hl]
  | cons inc rest ih =>
    intro l h
    unfold findFilesAux at h
    rw [List.flatMap_cons]
    rcases hn : nodeAt fs (incRoot cfg inc) with _ | node
    · simp only [hn] at h
      rw [show incEntries cfg fs inc = [] from by simp [incEntries, hn]]
      simpa using ih l h
    · simp only [hn] at h
      rcases hdd : node.isDir with _ | _
      · rw [if_neg (by simp [hdd])] at h
        split_ifs at h with hex
        · rw [show incEntries cfg fs inc = [] from by simp [incEntries, hn, hdd, hex]]
          simpa using ih l h
        · rcases ht : findFilesAux cfg fs rest with e | tl
          · rw [ht] at h; simp at h
          · rw [ht] at h
            obtain rfl : l = cleanSegs false (splitSlash inc) :: tl := by simpa using h.symm
            rw [show incEntries cfg fs inc = [cleanSegs false (splitSlash inc)] from by
              simp [incEntries, hn, hdd, hex]]
            simp [ih tl ht]
      · rw [if_pos hdd] at h
        rcases hw : walkCollect cfg (incRoot cfg inc) [] node with e | files
        · rw [hw] at h; simp at h
        · rw [hw] at h
          rcases ht : findFilesAux cfg fs rest with e | tl
          · rw [ht] at h; simp at h
          · rw [ht] at h
            obtain rfl :
                l = files.map (fun f => cleanSegs false (splitSlash inc ++ f)) ++ tl := by
              simpa using h.symm
            rw [show incEntries cfg fs inc
                = files.map (fun f => cleanSegs false (splitSlash inc ++ f)) from by
              simp [incEntries, hn, hdd, hw]]
            rw [ih tl ht]

/-- Claim C8: the tool is a function of the configuration and the tree (two
runs agree byte-for-byte); `findFiles` lists entries include by include, in
include order; and within one directory include over a well-formed (sorted)
tree the entries come out in lexicographic directory-walk order. -/
theorem claim_C8 :
    (∀ (cwd : String) (k : Bool) (cfg : Config) (fs : FSNode)
        (o₁ o₂ : Except Unit (List Nat)),
      runTool cwd k cfg fs = o₁ → runTool cwd k cfg fs = o₂ → o₁ = o₂)
  ∧ (∀ (cfg : Config) (fs : FSNode) (l : List (List String)),
      findFiles cfg fs = Except.ok l → l = cfg.Includes.flatMap (incEntries cfg fs))
  ∧ (∀ (cfg : Config) (fs : FSNode) (inc : String) (n : FSNode),
      nodeAt fs (incRoot cfg inc) = some n → wfNode n = true →
      (incEntries cfg fs inc).Pairwise segLex) := by
  refine ⟨?_, ?_, ?_⟩
  · intro cwd k cfg fs o₁ o₂ h₁ h₂
    rw [← h₁, ← h₂]
  · intro cfg fs l h
    exact findFilesAux_flatMap cfg fs cfg.Includes l h
  · intro cfg fs inc n hn hwf
    unfold incEntries
    rw [hn]
    cases n with
    | file a b c =>
      simp only [FSNode.isDir, Bool.false_eq_true, if_false]
      split_ifs <;> simp
    | dir w cs =>
      simp only [FSNode.isDir, if_true]
      rcases hw : walkCollect cfg (incRoot cfg inc) [] (FSNode.dir w cs) with e | files
      · simp
      · obtain ⟨hpw, hshape⟩ :=
          walkCollect_sorted cfg (incRoot cfg inc) (FSNode.dir w cs) hwf [] files hw
        rw [List.pairwise_map]
        refine List.Pairwise.imp_of_mem ?_ hpw
        intro x₁ x₂ hm₁ hm₂ hlex
        obtain ⟨t₁, ht₁, hv₁⟩ := hshape x₁ hm₁
        obtain ⟨t₂, ht₂, hv₂⟩ := hshape x₂ hm₂
        simp only [List.nil_append] at ht₁ ht₂
        rw [← ht₁] at hv₁
        rw [← ht₂] at hv₂
        rw [cleanSegs_append_valid false x₁ (splitSlash inc) hv₁,
          cleanSegs_append_valid false x₂ (splitSlash inc) hv₂]
        exact lex_append_left _ hlex

/-- Witness for C8 over the example configuration and snapshot. -/
theorem claim_C8_witness :
    runTool "/" true exCfg exFs = runTool "/" true exCfg exFs
  ∧ [["src", "a.txt"], ["src", "b.bin"], ["src", "sub", "c.go"]]
      = exCfg.Includes.flatMap (incEntries exCfg exFs)
  ∧ (incEntries exCfg exFs "src").Pairwise segLex := by
  refine ⟨?_, ?_, ?_⟩
  · exact claim_C8.1 "/" true exCfg exFs _ _ rfl rfl
  · exact claim_C8.2.1 exCfg exFs _ rfl
  · exact claim_C8.2.2 exCfg exFs "src" exTree rfl rfl
